import Mathlib

/-!
Verification of the metadata indexing and paginated retrieval pipeline of the
raspberry-pi-motion-detection repository.

The development shallowly embeds:
  * the DynamoDB-backed list operation `listVideosFromDynamoDB`
    (webapp/src/lib/videos.ts), including the base64/JSON continuation-token
    codec and the DynamoDB Query semantics it relies on (Limit applies to the
    scanned window before the filter expression; LastEvaluatedKey is returned
    whenever exactly Limit items were scanned);
  * the ingestion lambda (cdk/lambda/s3-video-indexer.ts);
  * the deletion route (webapp/src/app/api/videos/[key]/delete/route.ts) and
    the media-URL route;
  * the detection-overlay frame synchronization of
    webapp/src/components/VideoViewer.tsx (drawBoundingBoxes), with JS float
    playback time modelled as a rational number.
-/

/-! ## Data model

An `Item` is one row of the `motion-detection-videos` DynamoDB table, as
written by the ingestion lambda and updated by the deletion route.  The
table state is modelled as the list of its items in the order of the
`UploadTimeIndex` GSI scanned with `ScanIndexForward: false`, i.e. newest
first; theorems state this ordering as an explicit hypothesis. -/

structure Item where
  videoKey : String
  partition : String
  fileName : String
  uploadedAt : Nat
  size : Nat
  camera : String
  bucket : String
  ttl : Nat
  deleted : Option Bool
  deletedAt : Option Nat
  detectedObjects : Option (List String)
  deriving DecidableEq

/-- The shape of a `VideoMetadata` value returned by `listVideosFromDynamoDB`
(videos.ts, interface VideoMetadata). -/
structure VideoMetadata where
  videoKey : String
  fileName : String
  uploadedAt : Nat
  size : Nat
  camera : String
  bucket : String
  detectedObjects : Option (List String)
  deriving DecidableEq

/-- The `LastEvaluatedKey` of a Query against the `UploadTimeIndex` GSI: the
GSI key attributes (`partition`, `uploadedAt`) together with the table key
(`videoKey`). -/
structure LastKey where
  videoKey : String
  partition : String
  uploadedAt : Nat
  deriving DecidableEq

/-- Result shape of `listVideosFromDynamoDB` (videos.ts, interface
PaginatedVideos). -/
structure PaginatedVideos where
  videos : List VideoMetadata
  nextToken : Option String
  hasMore : Bool
  deriving DecidableEq

/-! ## Base64 codec

Models Node's `Buffer.from(s).toString('base64')` and
`Buffer.from(t, 'base64').toString('utf-8')`.  Encoding maps byte triples to
sextets with `=` padding.  Node's base64 decoder is lenient: characters
outside the alphabet (including padding) are ignored and any trailing group
of 2 or 3 sextets contributes its complete bytes; decoding therefore never
fails.  Strings are identified with their character sequences, a character
being one byte when its code point is below 256 (exact for the ASCII object
keys this system produces). -/

def b64Alphabet : List Char :=
  "ABCDEFGHIJKLMNOPQRSTUVWXYZabcdefghijklmnopqrstuvwxyz0123456789+/".data

/-- Character of a sextet value. -/
def b64Chr (v : Nat) : Char := b64Alphabet.getD v 'A'

/-- Sextet value of an alphabet character (64 when not in the alphabet,
but such characters are filtered out before use). -/
def b64Val (c : Char) : Nat := b64Alphabet.indexOf c

def isB64Char (c : Char) : Bool := b64Alphabet.contains c

/-- Base64-encode a byte list, 3 bytes to 4 characters, with padding. -/
def b64Encode : List Nat → List Char
  | [] => []
  | [b0] => [b64Chr (b0 / 4), b64Chr (b0 % 4 * 16), '=', '=']
  | [b0, b1] => [b64Chr (b0 / 4), b64Chr (b0 % 4 * 16 + b1 / 16), b64Chr (b1 % 16 * 4), '=']
  | b0 :: b1 :: b2 :: rest =>
      b64Chr (b0 / 4) :: b64Chr (b0 % 4 * 16 + b1 / 16) ::
      b64Chr (b1 % 16 * 4 + b2 / 64) :: b64Chr (b2 % 64) :: b64Encode rest

/-- Decode a list of alphabet characters (non-alphabet characters already
removed) 4 at a time; a trailing group of 2 or 3 yields 1 or 2 bytes. -/
def b64DecodeChunks : List Char → List Nat
  | c0 :: c1 :: c2 :: c3 :: rest =>
      (b64Val c0 * 4 + b64Val c1 / 16) ::
      (b64Val c1 % 16 * 16 + b64Val c2 / 4) ::
      (b64Val c2 % 4 * 64 + b64Val c3) :: b64DecodeChunks rest
  | [c0, c1, c2] =>
      [b64Val c0 * 4 + b64Val c1 / 16, b64Val c1 % 16 * 16 + b64Val c2 / 4]
  | [c0, c1] => [b64Val c0 * 4 + b64Val c1 / 16]
  | _ => []

/-- Node's lenient base64 decode composed with byte-to-character decoding:
`Buffer.from(s, 'base64').toString('utf-8')`. -/
def b64DecodeStr (s : String) : String :=
  String.mk ((b64DecodeChunks (s.data.filter isB64Char)).map Char.ofNat)

/-- `Buffer.from(s).toString('base64')`, as used client-side to encode an
object key into a path parameter (e.g. VideoViewer.tsx). -/
def b64EncodeStr (s : String) : String :=
  String.mk (b64Encode (s.data.map Char.toNat))

/-- True when every character of the string fits in one byte, so that the
byte-level model of Node string encoding is exact. -/
def byteChars (s : String) : Bool := s.data.all (fun c => c.toNat < 256)

/-! ## JSON codec for the continuation token

`nextToken` is `Buffer.from(JSON.stringify(LastEvaluatedKey)).toString('base64')`
and parsing is `JSON.parse(Buffer.from(token,'base64').toString('utf-8'))`
inside a try/catch whose failure leaves `exclusiveStartKey` undefined
(videos.ts lines 43-50, 128-131).  `JSON.stringify` is modelled on the fixed
key shape, escaping the two JSON string metacharacters; the parser accepts
exactly the strings this printer produces and returns `none` otherwise,
modelling the caught `JSON.parse` exception. -/

/-- JSON string-body escaping of `"` and `\`. -/
def escChars : List Char → List Char
  | [] => []
  | c :: cs => if c = '"' ∨ c = '\\' then '\\' :: c :: escChars cs else c :: escChars cs

def hexVal (c : Char) : Option Nat :=
  if '0' ≤ c ∧ c ≤ '9' then some (c.toNat - 48)
  else if 'a' ≤ c ∧ c ≤ 'f' then some (c.toNat - 97 + 10)
  else if 'A' ≤ c ∧ c ≤ 'F' then some (c.toNat - 65 + 10)
  else none

/-- Meaning of a single-character JSON string escape. -/
def unescapeChar (c : Char) : Option Char :=
  if c = '"' then some '"'
  else if c = '\\' then some '\\'
  else if c = '/' then some '/'
  else if c = 'b' then some (Char.ofNat 8)
  else if c = 'f' then some (Char.ofNat 12)
  else if c = 'n' then some (Char.ofNat 10)
  else if c = 'r' then some (Char.ofNat 13)
  else if c = 't' then some (Char.ofNat 9)
  else none

/-- Parse a JSON string body up to and including its closing quote,
undoing the JSON escapes (including the four-hex-digit form; an invalid
escape fails).  Unescaped characters are taken verbatim — also control
characters, which JSON.parse accepts escaped-only, but the printer
modelled by `escChars` never escapes them either, so printer and parser
agree on every byte-valued key; surrogate hex escapes (no code point) are
out of the modelled range. -/
def parseJString : List Char → Option (List Char × List Char)
  | [] => none
  | c :: cs =>
      if c = '\\' then
        match cs with
        | 'u' :: h1 :: h2 :: h3 :: h4 :: cs2 =>
            match hexVal h1, hexVal h2, hexVal h3, hexVal h4 with
            | some v1, some v2, some v3, some v4 =>
                (parseJString cs2).map
                  (fun p => (Char.ofNat (4096 * v1 + 256 * v2 + 16 * v3 + v4) :: p.1, p.2))
            | _, _, _, _ => none
        | c2 :: cs2 =>
            match unescapeChar c2 with
            | some u => (parseJString cs2).map (fun p => (u :: p.1, p.2))
            | none => none
        | [] => none
      else if c = '"' then some ([], cs)
      else (parseJString cs).map (fun p => (c :: p.1, p.2))

/-- Expect a literal character sequence, returning the rest of the input. -/
def expectLit : List Char → List Char → Option (List Char)
  | [], s => some s
  | p :: ps, s =>
      match s with
      | [] => none
      | c :: cs => if c = p then expectLit ps cs else none

/-- Decimal digits of a natural number, most significant first
(`[0]` for zero, matching `JSON.stringify(0)`). -/
def decDigits (n : Nat) : List Nat :=
  if n = 0 then [0] else (Nat.digits 10 n).reverse

def decChars (n : Nat) : List Char :=
  (decDigits n).map (fun d => Char.ofNat (48 + d))

def digitVal (c : Char) : Nat := c.toNat - 48

/-- Consume a maximal run of decimal digits. -/
def parseDigits : List Char → List Nat × List Char
  | [] => ([], [])
  | c :: cs =>
      if c.isDigit then
        let p := parseDigits cs
        (digitVal c :: p.1, p.2)
      else ([], c :: cs)

/-- Value of a most-significant-first digit list. -/
def valOfDigits (ds : List Nat) : Nat := ds.foldl (fun a d => 10 * a + d) 0

def jsonLit1 : List Char := "\x7b\"videoKey\":\"".data
def jsonSep2 : List Char := ",\"partition\":\"".data
def jsonSep3 : List Char := ",\"uploadedAt\":".data

/-- `JSON.stringify` of a `LastEvaluatedKey`. -/
def stringifyKeyChars (k : LastKey) : List Char :=
  jsonLit1 ++ escChars k.videoKey.data ++ '"' :: jsonSep2 ++
    escChars k.partition.data ++ '"' :: jsonSep3 ++
    decChars k.uploadedAt ++ ['\x7d']

/-- JSON whitespace. -/
def isWsChar (c : Char) : Bool := c = ' ' || c = '\t' || c = '\n' || c = '\r'

def skipWs (cs : List Char) : List Char := cs.dropWhile isWsChar

/-- A JSON value; numbers keep their source numeral. -/
inductive Json where
  | null
  | bool (b : Bool)
  | str (s : String)
  | num (lexeme : String)
  | arr (elems : List Json)
  | obj (members : List (String × Json))

/-- Integer part of a JSON number: `0`, or a nonzero digit followed by
digits (a leading zero before another digit is invalid). -/
def parseJIntPart : List Char → Option (List Char × List Char)
  | [] => none
  | c :: r =>
      if c = '0' then
        match r with
        | d :: _ => if d.isDigit then none else some (['0'], r)
        | [] => some (['0'], [])
      else if c.isDigit then
        some (c :: r.takeWhile Char.isDigit, r.dropWhile Char.isDigit)
      else none

/-- Optional fraction part: a dot followed by digits. -/
def parseJFrac : List Char → Option (List Char × List Char)
  | '.' :: r =>
      match r.takeWhile Char.isDigit with
      | [] => none
      | ds => some ('.' :: ds, r.dropWhile Char.isDigit)
  | cs => some ([], cs)

/-- Optional exponent part: e or E, an optional sign, then digits. -/
def parseJExp (cs : List Char) : Option (List Char × List Char) :=
  match cs with
  | c :: r =>
      if c = 'e' ∨ c = 'E' then
        let p :=
          match r with
          | s :: r2 => if s = '+' ∨ s = '-' then ([s], r2) else (([] : List Char), s :: r2)
          | [] => (([] : List Char), ([] : List Char))
        match p.2.takeWhile Char.isDigit with
        | [] => none
        | ds => some (c :: (p.1 ++ ds), p.2.dropWhile Char.isDigit)
      else some ([], cs)
  | [] => some ([], [])

/-- An unsigned JSON number token: integer part, optional fraction,
optional exponent; the lexeme is returned verbatim. -/
def parseJNumPos (cs : List Char) : Option (List Char × List Char) := do
  let (ip, r1) ← parseJIntPart cs
  let (fp, r2) ← parseJFrac r1
  let (ep, r3) ← parseJExp r2
  some (ip ++ fp ++ ep, r3)

/-- A JSON number token, possibly with a leading minus sign. -/
def parseJNumber (cs : List Char) : Option (List Char × List Char) :=
  match cs with
  | '-' :: r => (parseJNumPos r).map (fun p => ('-' :: p.1, p.2))
  | _ => parseJNumPos cs

mutual

/-- Recursive-descent JSON value parser; the fuel bounds recursion depth
and each unit spent consumes at least one input character, so the
`length + 2` budget of `jsonParse` never runs out. -/
def parseJValue : Nat → List Char → Option (Json × List Char)
  | 0, _ => none
  | fuel + 1, cs =>
      match cs with
      | [] => none
      | c :: rest =>
          if c = '"' then
            (parseJString rest).map (fun p => (Json.str (String.mk p.1), p.2))
          else if c = '\x7b' then
            match skipWs rest with
            | '\x7d' :: r2 => some (Json.obj [], r2)
            | r2 => (parseJMembers fuel r2).map (fun p => (Json.obj p.1, p.2))
          else if c = '[' then
            match skipWs rest with
            | ']' :: r2 => some (Json.arr [], r2)
            | r2 => (parseJElements fuel r2).map (fun p => (Json.arr p.1, p.2))
          else if c = 't' then (expectLit "rue".data rest).map (fun r => (Json.bool true, r))
          else if c = 'f' then (expectLit "alse".data rest).map (fun r => (Json.bool false, r))
          else if c = 'n' then (expectLit "ull".data rest).map (fun r => (Json.null, r))
          else (parseJNumber cs).map (fun p => (Json.num (String.mk p.1), p.2))

/-- One or more `"name": value` members, ending at the closing brace. -/
def parseJMembers : Nat → List Char → Option (List (String × Json) × List Char)
  | 0, _ => none
  | fuel + 1, cs =>
      match skipWs cs with
      | '"' :: r1 =>
          match parseJString r1 with
          | none => none
          | some (name, r2) =>
              match skipWs r2 with
              | ':' :: r3 =>
                  match parseJValue fuel (skipWs r3) with
                  | none => none
                  | some (v, r4) =>
                      match skipWs r4 with
                      | ',' :: r5 =>
                          (parseJMembers fuel r5).map
                            (fun p => ((String.mk name, v) :: p.1, p.2))
                      | '\x7d' :: r5 => some ([(String.mk name, v)], r5)
                      | _ => none
              | _ => none
      | _ => none

/-- One or more array elements, ending at the closing bracket. -/
def parseJElements : Nat → List Char → Option (List Json × List Char)
  | 0, _ => none
  | fuel + 1, cs =>
      match parseJValue fuel (skipWs cs) with
      | none => none
      | some (v, r1) =>
          match skipWs r1 with
          | ',' :: r2 => (parseJElements fuel r2).map (fun p => (v :: p.1, p.2))
          | ']' :: r2 => some ([v], r2)
          | _ => none

end

/-- `JSON.parse`: a single JSON value surrounded by whitespace, consuming
the whole input; `none` models the thrown SyntaxError. -/
def jsonParse (s : String) : Option Json :=
  match parseJValue (s.data.length + 2) (skipWs s.data) with
  | some (v, rest) => if skipWs rest = [] then some v else none
  | none => none

def lookupMember (ms : List (String × Json)) (name : String) : Option Json :=
  (ms.find? (fun p => p.1 == name)).map (fun p => p.2)

/-- The value of a number lexeme that is a plain decimal numeral. -/
def numLexNat (lex : String) : Option Nat :=
  match lex.data with
  | [] => none
  | ds => if ds.all Char.isDigit then some (valOfDigits (ds.map digitVal)) else none

/-- DynamoDB's validation of an `ExclusiveStartKey` for a Query against
`UploadTimeIndex`: an object with exactly the index and table key
attributes — `videoKey` (string), `partition` (string) and `uploadedAt`
(number) — in any member order.  `uploadedAt` must be the plain decimal
numeral of a natural number: fractional, signed or exponent numerals
(Numbers the store itself would accept, but which this system never
writes) are treated as invalid, as are duplicate members (which
`JSON.parse` would collapse before the SDK sees them). -/
def keyOfJson : Json → Option LastKey
  | Json.obj ms =>
      if ms.length = 3 then
        match lookupMember ms "videoKey", lookupMember ms "partition",
            lookupMember ms "uploadedAt" with
        | some (Json.str vk), some (Json.str pt), some (Json.num lex) =>
            (numLexNat lex).map (fun u => ⟨vk, pt, u⟩)
        | _, _, _ => none
      else none
  | _ => none

/-- The JSON value `JSON.stringify` produces for a `LastEvaluatedKey`. -/
def canonicalKeyJson (k : LastKey) : Json :=
  Json.obj [("videoKey", Json.str k.videoKey), ("partition", Json.str k.partition),
    ("uploadedAt", Json.num (String.mk (decChars k.uploadedAt)))]

/-- Encoding of `LastEvaluatedKey` as a continuation token
(videos.ts lines 128-131). -/
def encodeToken (k : LastKey) : String :=
  String.mk (b64Encode ((stringifyKeyChars k).map Char.toNat))

/-- Decoding of a continuation token as the query path uses it
(videos.ts lines 43-50): lenient base64 decode, `JSON.parse`, and the
store's key-shape validation.  `none` covers both the caught parse
exception — which leaves `exclusiveStartKey` undefined — and, in
`listVideosFromDynamoDB` below (which models only the non-throwing path),
a JSON value the store would reject; `listVideosOutcome` separates the
latter into the error it really is. -/
def decodeToken (t : String) : Option LastKey :=
  (jsonParse (b64DecodeStr t)).bind keyOfJson

/-! ## The list operation (videos.ts, listVideosFromDynamoDB) -/

def PAGE_SIZE : Nat := 50

/-- The first piece of the FilterExpression built by videos.ts lines
60-64: `attribute_not_exists(deleted) OR deleted = :notDeleted`. -/
def notDeletedF (it : Item) : Bool :=
  it.deleted.isNone || it.deleted == some false

/-- The FilterExpression of videos.ts lines 60-75.  The pieces
`attribute_not_exists(deleted) OR deleted = :notDeleted` and
`#camera = :camera` are joined with `' AND '` WITHOUT parentheses, and
DynamoDB gives AND higher precedence than OR, so with a camera filter the
expression evaluates as
`attribute_not_exists(deleted) OR (deleted = false AND camera = :camera)`:
an item carrying no `deleted` attribute (every item the ingestion lambda
writes) passes whatever its camera.  The caller passes `none` when no
camera filter applies (the API route maps an absent or empty query
parameter to undefined). -/
def passesFilter (camera : Option String) (it : Item) : Bool :=
  match camera with
  | none => it.deleted.isNone || it.deleted == some false
  | some c => it.deleted.isNone || (it.deleted == some false && it.camera == c)

/-- The `KeyConditionExpression` on the GSI sort key built by videos.ts
lines 81-101.  `startDate`/`endDate` stand for
`Math.floor(new Date(d).getTime() / 1000)`, the epoch second of the date's
UTC midnight; the code adds 86400 seconds to the end date and uses
inclusive comparisons (BETWEEN / <=). -/
def keyCond (startDate endDate : Option Nat) (u : Nat) : Bool :=
  match startDate, endDate with
  | some s, some e => decide (s ≤ u) && decide (u ≤ e + 86400)
  | some s, none => decide (s ≤ u)
  | none, some e => decide (u ≤ e + 86400)
  | none, none => true

def itemKey (it : Item) : LastKey :=
  ⟨it.videoKey, it.partition, it.uploadedAt⟩

/-- Resumption from an `ExclusiveStartKey`: the items strictly after the
position of that key in the scanned index order.  For keys taken from a
previous response — the only keys this code ever produces — the key is
present in the range (distinct keys granted) and this is exactly the
suffix after that item.  For a well-formed key absent from the range
(reachable only through a hand-crafted token) the real store resumes at
the key's order position while this model returns the empty suffix; the
theorems quantifying over arbitrary tokens (C5) therefore carry a
conjunct about the returned window that holds for every subset of the
table, independent of the resume position. -/
def afterKey (esk : Option LastKey) (l : List Item) : List Item :=
  match esk with
  | none => l
  | some k => (l.dropWhile (fun it => itemKey it != k)).drop 1

structure QueryResponse where
  items : List Item
  lastEvaluatedKey : Option LastKey
  deriving DecidableEq

/-- DynamoDB Query semantics for the command built in videos.ts lines
104-116: the key condition delimits the scanned range of the
descending-ordered index, `Limit` bounds the number of items scanned
(before the filter expression is applied), the filter expression is applied
to the scanned window, and `LastEvaluatedKey` is returned whenever the scan
stopped after reading exactly `Limit` items — also when the range happened
to end there. -/
def dynamoQuery (index : List Item) (keyC filt : Item → Bool)
    (esk : Option LastKey) : QueryResponse :=
  let range := index.filter keyC
  let remaining := afterKey esk range
  let scanned := remaining.take PAGE_SIZE
  { items := scanned.filter filt
    lastEvaluatedKey :=
      if scanned.length = PAGE_SIZE then scanned.getLast?.map itemKey else none }

/-- Projection of a table item to the returned `VideoMetadata`
(videos.ts lines 118-126). -/
def toVideoMetadata (it : Item) : VideoMetadata :=
  { videoKey := it.videoKey
    fileName := it.fileName
    uploadedAt := it.uploadedAt
    size := it.size
    camera := it.camera
    bucket := it.bucket
    detectedObjects := it.detectedObjects }

/-- `listVideosFromDynamoDB(continuationToken?, camera?, startDate?, endDate?)`
(videos.ts lines 39-137), over a given index state. -/
def listVideosFromDynamoDB (index : List Item) (continuationToken : Option String)
    (camera : Option String) (startDate endDate : Option Nat) : PaginatedVideos :=
  let exclusiveStartKey := continuationToken.bind decodeToken
  let q := dynamoQuery index (fun it => keyCond startDate endDate it.uploadedAt)
    (passesFilter camera) exclusiveStartKey
  { videos := q.items.map toVideoMetadata
    nextToken := q.lastEvaluatedKey.map encodeToken
    hasMore := q.lastEvaluatedKey.isSome }

/-- Paging from a given token, following `nextToken` while it is present;
`fuel` is an upper bound on the number of requests, sufficient fuel is a
hypothesis of the pagination theorems. -/
def paginate (index : List Item) (camera : Option String)
    (startDate endDate : Option Nat) : Nat → Option String → List (List VideoMetadata)
  | 0, _ => []
  | fuel + 1, tok =>
      let r := listVideosFromDynamoDB index tok camera startDate endDate
      match r.nextToken with
      | some t => r.videos :: paginate index camera startDate endDate fuel (some t)
      | none => [r.videos]

/-! ## Ingestion lambda (cdk/lambda/s3-video-indexer.ts) -/

/-- One record of the S3 event: bucket name, the (URL-encoded) object key
and the object size. -/
structure S3EventRecord where
  bucketName : String
  objectKey : String
  objectSize : Nat
  deriving DecidableEq

/-- The part of the `HeadObject` response the lambda reads: the
last-modified time in milliseconds and the `camera` user metadata entry. -/
structure HeadResult where
  lastModifiedMs : Option Nat
  metadataCamera : Option String
  deriving DecidableEq

/-- Percent-decoding of `%XX` escapes; sequences that are not a valid
escape are kept verbatim (`decodeURIComponent` would throw on them, a case
no theorem below depends on). -/
def percentDecode : List Char → List Char
  | [] => []
  | '%' :: h1 :: h2 :: rest2 =>
      match hexVal h1, hexVal h2 with
      | some v1, some v2 => Char.ofNat (16 * v1 + v2) :: percentDecode rest2
      | _, _ => '%' :: h1 :: h2 :: percentDecode rest2
  | c :: cs => c :: percentDecode cs

/-- `decodeURIComponent(record.s3.object.key.replace(/\+/g, ' '))`
(s3-video-indexer.ts line 17). -/
def urlDecode (s : String) : String :=
  String.mk (percentDecode (s.data.map (fun c => if c = '+' then ' ' else c)))

/-- `key.split('/').pop() || ''` (s3-video-indexer.ts line 33). -/
def fileNameOf (key : String) : String := (key.splitOn "/").getLastD ""

/-- JS `String.includes`: whether `pat` occurs as a contiguous
subsequence of `l`. -/
def containsSeq (pat : List Char) (l : List Char) : Bool :=
  if pat.isPrefixOf l then true
  else
    match l with
    | [] => false
    | _ :: cs => containsSeq pat cs

/-- Camera derivation (s3-video-indexer.ts lines 39-48): the `camera`
metadata entry when present and truthy, else inference from filename
substrings, else "unknown". -/
def deriveCamera (metaCam : Option String) (fileName : String) : String :=
  let cameraType :=
    match metaCam with
    | some c => if c = "" then "unknown" else c
    | none => "unknown"
  if cameraType = "unknown" then
    if containsSeq "picamera".data fileName.data then "picamera"
    else if containsSeq "usb".data fileName.data then "usb"
    else cameraType
  else cameraType

/-- A `PutCommand` keyed on `videoKey`: an unconditional overwrite of the
item with that key. -/
def putItem (table : List Item) (item : Item) : List Item :=
  item :: table.filter (fun it => it.videoKey != item.videoKey)

/-- Processing of one S3 event record by the lambda handler
(s3-video-indexer.ts lines 15-70): skip keys outside the naming
convention, derive the item from the `HeadObject` response (`head` gives
the response per bucket and key; `nowMs` is `Date.now()`, used only when
`LastModified` is absent or its epoch value 0 is falsy) and overwrite by
key. -/
def processRecord (head : String → String → HeadResult) (nowMs : Nat)
    (table : List Item) (r : S3EventRecord) : List Item :=
  let key := urlDecode r.objectKey
  if !(".mp4".data.isSuffixOf key.data) || !("motion_detections/".data.isPrefixOf key.data) then
    table
  else
    let h := head r.bucketName key
    let fileName := fileNameOf key
    let lastModMs :=
      match h.lastModifiedMs with
      | some m => if m ≠ 0 then m else nowMs
      | none => nowMs
    let uploadedAt := lastModMs / 1000
    let item : Item :=
      { videoKey := key
        partition := "all"
        fileName := fileName
        uploadedAt := uploadedAt
        size := r.objectSize
        camera := deriveCamera h.metadataCamera fileName
        bucket := r.bucketName
        ttl := uploadedAt + 90 * 24 * 60 * 60
        deleted := none
        deletedAt := none
        detectedObjects := none }
    putItem table item

/-- The lambda handler: fold over `event.Records`. -/
def handler (head : String → String → HeadResult) (nowMs : Nat)
    (event : List S3EventRecord) (table : List Item) : List Item :=
  event.foldl (processRecord head nowMs) table

/-! ## Deletion route (webapp/src/app/api/videos/[key]/delete/route.ts) -/

/-- Outcomes of the three effectful calls the route makes; the
bounding-box delete failure is swallowed by an inner try/catch and has no
influence, which the definition below reflects by never branching on it. -/
structure DeleteEnv where
  s3DeleteOk : Bool
  bboxDeleteOk : Bool
  ddbUpdateOk : Bool
  deriving DecidableEq

/-- The `UpdateCommand` of the route (lines 61-76):
`SET deleted = true, deletedAt = now` on the item with the given key
(modelled on the present-key case; no theorem concerns the upsert of an
absent key). -/
def markDeleted (table : List Item) (key : String) (deletedAt : Nat) : List Item :=
  table.map (fun it =>
    if it.videoKey = key then { it with deleted := some true, deletedAt := some deletedAt }
    else it)

/-- `videoKey.replace('.mp4', '_bboxes.json')`: JS `String.replace` with a
string pattern replaces the first occurrence only. -/
def replaceFirstChars (pat rep : List Char) : List Char → List Char
  | [] => []
  | c :: cs =>
      if pat.isPrefixOf (c :: cs) then rep ++ (c :: cs).drop pat.length
      else c :: replaceFirstChars pat rep cs

def replaceFirst (s pat rep : String) : String :=
  String.mk (replaceFirstChars pat.data rep.data s.data)

structure DeleteOutcome where
  status : Nat
  table : List Item
  deriving DecidableEq

/-- The DELETE route (lines 26-95): 401 without a session; otherwise the
key path parameter is base64-decoded (leniently, as Node does — this never
fails), the S3 object delete runs first and its failure reaches the outer
catch (500) before any index write, the bounding-box delete failure is
swallowed, and finally the tombstone update runs; its failure is also a
500 with no table change, success answers 200. -/
def deleteRoute (authed : Bool) (env : DeleteEnv) (encodedKey : String)
    (table : List Item) (nowMs : Nat) : DeleteOutcome :=
  if !authed then { status := 401, table := table }
  else
    let videoKey := b64DecodeStr encodedKey
    let _bboxKey := replaceFirst videoKey ".mp4" "_bboxes.json"
    if !env.s3DeleteOk then { status := 500, table := table }
    else if !env.ddbUpdateOk then { status := 500, table := table }
    else { status := 200, table := markDeleted table videoKey (nowMs / 1000) }

/-- The media-URL route (GET /api/videos/[key]): 401 without a session,
else base64-decode the key leniently and answer 200 with a presigned URL
for whatever key resulted, or 500 when presigning fails. -/
def mediaUrlRoute (authed : Bool) (presignOk : Bool) (encodedKey : String) : Nat :=
  if !authed then 401
  else
    let _decodedKey := b64DecodeStr encodedKey
    if presignOk then 200 else 500

/-! ## Detection overlay synchronization (VideoViewer.tsx, drawBoundingBoxes)

Playback time (a JS float) is modelled as a rational number; the frame
selection arithmetic on the claim's inputs is exact in both. -/

structure Detection where
  class_name : String
  confidence : ℚ
  bbox : ℚ × ℚ × ℚ × ℚ
  frame_index : Int
  deriving DecidableEq

/-- `Math.floor(video.currentTime * fps)` with `const fps = 20`
(VideoViewer.tsx lines 359-361). -/
def currentFrameIndex (t : ℚ) : Int := Int.floor (t * 20)

/-- `Math.round(currentFrameIndex / sampleRate) * sampleRate` with
`const sampleRate = 10` (lines 363-367); `Math.round` rounds half toward
positive infinity, as does Mathlib's `round`. -/
def closestSampledFrame (t : ℚ) : Int :=
  round ((currentFrameIndex t : ℚ) / 10) * 10

/-- The detections drawn at playback time `t`
(lines 369-372 and the following forEach). -/
def visibleDetections (t : ℚ) (detections : List Detection) : List Detection :=
  detections.filter (fun d => d.frame_index == closestSampledFrame t)

/-! ## Concrete fixtures used to instantiate the theorems -/

/-- A sample indexed item; `i` selects a distinct key and a strictly
descending upload time. -/
def sampleItem (i : Nat) : Item :=
  { videoKey := String.mk ['v', Char.ofNat (65 + i)]
    partition := "all"
    fileName := "clip.mp4"
    uploadedAt := 1000 - i
    size := 100
    camera := "picamera"
    bucket := "pi-motion-detection"
    ttl := 1000 - i + 7776000
    deleted := none
    deletedAt := none
    detectedObjects := none }

/-- A store whose key-condition range ends exactly at the page boundary. -/
def store50 : List Item := (List.range 50).map sampleItem

def store3 : List Item := (List.range 3).map sampleItem

def itemAt (name : Char) (u : Nat) : Item :=
  { videoKey := String.mk ['k', name]
    partition := "all"
    fileName := "clip.mp4"
    uploadedAt := u
    size := 1
    camera := "usb"
    bucket := "pi-motion-detection"
    ttl := u + 7776000
    deleted := none
    deletedAt := none
    detectedObjects := none }

/-- Items around the end-of-day boundary of the date `0` (epoch midnight):
one exactly at the boundary second 86400, one a second past it. -/
def dateStore : List Item := [itemAt 'b' 86401, itemAt 'a' 86400, itemAt 'c' 100]

def sampleHead : String → String → HeadResult := fun _ _ => ⟨some 5000000, none⟩

def sampleEventRecord : S3EventRecord :=
  ⟨"pi-motion-detection", "motion_detections/20240101_120000_picamera_motion_clip.mp4", 1234⟩

def allOkEnv : DeleteEnv := ⟨true, true, true⟩

def s3FailEnv : DeleteEnv := ⟨false, true, true⟩

/-! ## Codec lemmas -/

theorem b64Val_b64Chr : ∀ v < 64, b64Val (b64Chr v) = v := by decide

theorem isB64Char_b64Chr : ∀ v < 64, isB64Char (b64Chr v) = true := by decide

theorem isB64Char_pad : isB64Char '=' = false := by decide

/-- Decoding inverts encoding on byte lists. -/
theorem b64DecodeChunks_filter_b64Encode :
    ∀ (bs : List Nat), (∀ b ∈ bs, b < 256) →
      b64DecodeChunks ((b64Encode bs).filter isB64Char) = bs
  | [], _ => rfl
  | [b0], h => by
      have h0 : b0 < 256 := h b0 (by simp)
      have e0 := isB64Char_b64Chr (b0 / 4) (by omega)
      have e1 := isB64Char_b64Chr (b0 % 4 * 16) (by omega)
      simp only [b64Encode, List.filter, e0, e1, isB64Char_pad, b64DecodeChunks]
      rw [b64Val_b64Chr _ (by omega), b64Val_b64Chr _ (by omega)]
      simp only [List.cons.injEq, and_true]
      omega
  | [b0, b1], h => by
      have h0 : b0 < 256 := h b0 (by simp)
      have h1 : b1 < 256 := h b1 (by simp)
      have e0 := isB64Char_b64Chr (b0 / 4) (by omega)
      have e1 := isB64Char_b64Chr (b0 % 4 * 16 + b1 / 16) (by omega)
      have e2 := isB64Char_b64Chr (b1 % 16 * 4) (by omega)
      simp only [b64Encode, List.filter, e0, e1, e2, isB64Char_pad, b64DecodeChunks]
      rw [b64Val_b64Chr _ (by omega), b64Val_b64Chr _ (by omega), b64Val_b64Chr _ (by omega)]
      simp only [List.cons.injEq, and_true]
      omega
  | [b0, b1, b2], h => by
      have h0 : b0 < 256 := h b0 (by simp)
      have h1 : b1 < 256 := h b1 (by simp)
      have h2 : b2 < 256 := h b2 (by simp)
      have e0 := isB64Char_b64Chr (b0 / 4) (by omega)
      have e1 := isB64Char_b64Chr (b0 % 4 * 16 + b1 / 16) (by omega)
      have e2 := isB64Char_b64Chr (b1 % 16 * 4 + b2 / 64) (by omega)
      have e3 := isB64Char_b64Chr (b2 % 64) (by omega)
      simp only [b64Encode, List.filter, e0, e1, e2, e3, b64DecodeChunks]
      rw [b64Val_b64Chr _ (by omega), b64Val_b64Chr _ (by omega),
        b64Val_b64Chr _ (by omega), b64Val_b64Chr _ (by omega)]
      simp only [List.cons.injEq, and_true]
      refine ⟨by omega, by omega, by omega⟩
  | b0 :: b1 :: b2 :: b3 :: rest, h => by
      have h0 : b0 < 256 := h b0 (by simp)
      have h1 : b1 < 256 := h b1 (by simp)
      have h2 : b2 < 256 := h b2 (by simp)
      have e0 := isB64Char_b64Chr (b0 / 4) (by omega)
      have e1 := isB64Char_b64Chr (b0 % 4 * 16 + b1 / 16) (by omega)
      have e2 := isB64Char_b64Chr (b1 % 16 * 4 + b2 / 64) (by omega)
      have e3 := isB64Char_b64Chr (b2 % 64) (by omega)
      have ih := b64DecodeChunks_filter_b64Encode (b3 :: rest)
        (fun b hb => h b (by simp at hb; rcases hb with hb | hb <;> simp [hb]))
      simp only [b64Encode, List.filter, e0, e1, e2, e3, b64DecodeChunks]
      rw [b64Val_b64Chr _ (by omega), b64Val_b64Chr _ (by omega),
        b64Val_b64Chr _ (by omega), b64Val_b64Chr _ (by omega)]
      simp only [List.cons.injEq]
      refine ⟨by omega, by omega, by omega, ih⟩

theorem map_ofNat_map_toNat (cs : List Char) :
    (cs.map Char.toNat).map Char.ofNat = cs := by
  simp [List.map_map, Function.comp_def, Char.ofNat_toNat]

theorem expectLit_append : ∀ (ps t : List Char), expectLit ps (ps ++ t) = some t
  | [], _ => rfl
  | p :: ps, t => by simp [expectLit, expectLit_append ps t]

theorem escChars_cons_pos (c : Char) (cs : List Char) (h : c = '"' ∨ c = '\\') :
    escChars (c :: cs) = '\\' :: c :: escChars cs := by
  rw [escChars.eq_def]; simp only [if_pos h]

theorem escChars_cons_neg (c : Char) (cs : List Char) (h : ¬(c = '"' ∨ c = '\\')) :
    escChars (c :: cs) = c :: escChars cs := by
  rw [escChars.eq_def]; simp only [if_neg h]

theorem parseJString_quote (cs : List Char) : parseJString ('"' :: cs) = some ([], cs) := by
  rw [parseJString.eq_def]
  simp

theorem parseJString_esc (c2 : Char) (cs2 : List Char) (hq : c2 = '"' ∨ c2 = '\\') :
    parseJString ('\\' :: c2 :: cs2) =
      (parseJString cs2).map (fun p => (c2 :: p.1, p.2)) := by
  rcases hq with rfl | rfl <;>
    · rw [parseJString.eq_def]
      simp [unescapeChar]

theorem parseJString_other (c : Char) (cs : List Char) (h1 : ¬c = '\\') (h2 : ¬c = '"') :
    parseJString (c :: cs) = (parseJString cs).map (fun p => (c :: p.1, p.2)) := by
  rw [parseJString.eq_def]
  simp only [if_neg h1, if_neg h2]

theorem parseJString_escChars :
    ∀ (s t : List Char), parseJString (escChars s ++ '"' :: t) = some (s, t)
  | [], t => by
      show parseJString ('"' :: t) = some ([], t)
      exact parseJString_quote t
  | c :: cs, t => by
      by_cases hc : c = '"' ∨ c = '\\'
      · rw [escChars_cons_pos c cs hc]
        simp only [List.cons_append]
        rw [parseJString_esc c _ hc, parseJString_escChars cs t]
        rfl
      · push_neg at hc
        rw [escChars_cons_neg c cs (by tauto)]
        simp only [List.cons_append]
        rw [parseJString_other c _ hc.2 hc.1, parseJString_escChars cs t]
        rfl

/-- A string body needing no escapes (e.g. a literal member name) parses
to itself. -/
theorem parseJString_lit (nm : List Char) (hnm : escChars nm = nm) (t : List Char) :
    parseJString (nm ++ '"' :: t) = some (nm, t) := by
  conv_lhs => rw [← hnm]
  rw [parseJString_escChars]

theorem digit_char_facts :
    ∀ d < 10, (Char.ofNat (48 + d)).isDigit = true ∧
      digitVal (Char.ofNat (48 + d)) = d ∧ (Char.ofNat (48 + d)).toNat < 256 := by
  decide

theorem parseDigits_append (ds : List Nat) (hds : ∀ d ∈ ds, d < 10)
    (c : Char) (hc : c.isDigit = false) (t : List Char) :
    parseDigits ((ds.map (fun d => Char.ofNat (48 + d))) ++ c :: t) = (ds, c :: t) := by
  induction ds with
  | nil => simp [parseDigits, hc]
  | cons d ds ih =>
      have hd := digit_char_facts d (hds d (by simp))
      have ih' := ih (fun x hx => hds x (by simp [hx]))
      simp only [List.map_cons, List.cons_append, parseDigits, hd.1, if_true,
        List.append_eq, ih', hd.2.1]

theorem valOfDigits_reverse (L : List Nat) :
    valOfDigits L.reverse = Nat.ofDigits 10 L := by
  induction L with
  | nil => rfl
  | cons x L ih =>
      unfold valOfDigits at *
      rw [List.reverse_cons, List.foldl_append, ih, Nat.ofDigits_cons]
      simp only [List.foldl_cons, List.foldl_nil]
      omega

theorem valOfDigits_decDigits (n : Nat) : valOfDigits (decDigits n) = n := by
  by_cases h : n = 0
  · subst h; rfl
  · simp only [decDigits, h, if_false]
    rw [valOfDigits_reverse, Nat.ofDigits_digits]

theorem decDigits_lt (n : Nat) : ∀ d ∈ decDigits n, d < 10 := by
  intro d hd
  by_cases h : n = 0
  · simp [decDigits, h] at hd; omega
  · simp only [decDigits, h, if_false, List.mem_reverse] at hd
    exact Nat.digits_lt_base (by norm_num) hd

theorem decDigits_ne_nil (n : Nat) : decDigits n ≠ [] := by
  by_cases h : n = 0
  · simp [decDigits, h]
  · simp [decDigits, h, Nat.digits_ne_nil_iff_ne_zero]

theorem isDigit_rbrace : ('\x7d').isDigit = false := by decide

/-- Further facts about decimal digit characters, steering the JSON
tokenizer: a digit is not a value-opening character, not whitespace and
not a separator, and represents zero exactly when it is `'0'`. -/
theorem digit_char_facts2 :
    ∀ d < 10, Char.ofNat (48 + d) ≠ '-' ∧ (Char.ofNat (48 + d) = '0' ↔ d = 0) ∧
      Char.ofNat (48 + d) ≠ '"' ∧ Char.ofNat (48 + d) ≠ '\x7b' ∧
      Char.ofNat (48 + d) ≠ '[' ∧ Char.ofNat (48 + d) ≠ 't' ∧
      Char.ofNat (48 + d) ≠ 'f' ∧ Char.ofNat (48 + d) ≠ 'n' ∧
      isWsChar (Char.ofNat (48 + d)) = false := by decide

/-- The leading digit of a nonzero numeral is nonzero. -/
theorem decDigits_head_ne_zero (u : Nat) (hu : u ≠ 0) (d : Nat) (ds : List Nat)
    (h : decDigits u = d :: ds) : d ≠ 0 := by
  have hne : Nat.digits 10 u ≠ [] := Nat.digits_ne_nil_iff_ne_zero.mpr hu
  have hlast : (Nat.digits 10 u).getLast hne ≠ 0 := Nat.getLast_digit_ne_zero 10 hu
  have h1 : (Nat.digits 10 u).reverse = d :: ds := by
    simpa [decDigits, hu] using h
  have h2 : (Nat.digits 10 u).getLast? = some d := by
    rw [← List.head?_reverse, h1]
    rfl
  have h3 := List.getLast?_eq_getLast (Nat.digits 10 u) hne
  rw [h3] at h2
  rw [Option.some.inj h2] at hlast
  exact hlast

theorem takeWhile_digits_append (ds : List Char) (h : ∀ c ∈ ds, c.isDigit = true)
    (c : Char) (hc : c.isDigit = false) (t : List Char) :
    (ds ++ c :: t).takeWhile Char.isDigit = ds ∧
    (ds ++ c :: t).dropWhile Char.isDigit = c :: t := by
  induction ds with
  | nil =>
      constructor
      · simp [List.takeWhile_cons, hc]
      · simp [List.dropWhile_cons, hc]
  | cons d ds ih =>
      have hd := h d (by simp)
      have ih' := ih (fun x hx => h x (by simp [hx]))
      constructor
      · simp [List.takeWhile_cons, hd, ih'.1]
      · simp [List.dropWhile_cons, hd, ih'.2]

theorem decChars_all_digit (u : Nat) : ∀ c ∈ decChars u, c.isDigit = true := by
  intro c hc
  obtain ⟨d, hd, rfl⟩ := List.mem_map.mp hc
  exact (digit_char_facts d (decDigits_lt u d hd)).1

theorem map_digitVal_decChars (u : Nat) : (decChars u).map digitVal = decDigits u := by
  unfold decChars
  rw [List.map_map]
  have h : ∀ d ∈ decDigits u, (digitVal ∘ fun d => Char.ofNat (48 + d)) d = id d := by
    intro d hd
    exact (digit_char_facts d (decDigits_lt u d hd)).2.1
  rw [List.map_congr_left h, List.map_id]

/-- The printed numeral reads back as its value. -/
theorem numLexNat_decChars (u : Nat) : numLexNat (String.mk (decChars u)) = some u := by
  have hmk : (String.mk (decChars u)).data = decChars u := rfl
  unfold numLexNat
  rw [hmk]
  cases hdc : decChars u with
  | nil => exact absurd (List.map_eq_nil_iff.mp hdc) (decDigits_ne_nil u)
  | cons c cs =>
      have hall : (c :: cs).all Char.isDigit = true := by
        rw [← hdc]
        exact List.all_eq_true.mpr (decChars_all_digit u)
      show (if (c :: cs).all Char.isDigit then
        some (valOfDigits ((c :: cs).map digitVal)) else none) = some u
      rw [if_pos hall]
      rw [← hdc, map_digitVal_decChars, valOfDigits_decDigits]

theorem parseJNumber_cons_ne_neg (c : Char) (cs : List Char) (h : c ≠ '-') :
    parseJNumber (c :: cs) = parseJNumPos (c :: cs) := by
  rw [parseJNumber.eq_def]
  split
  · rename_i r heq
    injection heq with h1 _
    exact absurd h1 h
  · rfl

theorem parseJFrac_rbrace (t : List Char) : parseJFrac ('\x7d' :: t) = some ([], '\x7d' :: t) := by
  rw [parseJFrac.eq_def]
  split
  · rename_i r heq
    injection heq with h1 _
    exact absurd h1 (by decide)
  · rfl

theorem parseJExp_rbrace (t : List Char) : parseJExp ('\x7d' :: t) = some ([], '\x7d' :: t) :=
  rfl

theorem parseJIntPart_digits (c : Char) (hdig : c.isDigit = true) (hne : c ≠ '0')
    (r : List Char) :
    parseJIntPart (c :: r) =
      some (c :: r.takeWhile Char.isDigit, r.dropWhile Char.isDigit) := by
  simp only [parseJIntPart]
  rw [if_neg hne, if_pos hdig]

/-- The printed numeral followed by the closing brace is lexed as one
number token ending right before the brace. -/
theorem parseJNumber_decChars (u : Nat) (t : List Char) :
    parseJNumber (decChars u ++ '\x7d' :: t) = some (decChars u, '\x7d' :: t) := by
  by_cases hu : u = 0
  · subst hu
    rw [show decChars 0 ++ '\x7d' :: t = '0' :: '\x7d' :: t from rfl]
    rw [parseJNumber_cons_ne_neg _ _ (by decide)]
    unfold parseJNumPos
    rw [show parseJIntPart ('0' :: '\x7d' :: t) = some (['0'], '\x7d' :: t) from by
      simp [parseJIntPart]]
    simp only [Option.bind_eq_bind, Option.some_bind]
    rw [parseJFrac_rbrace]
    simp only [Option.some_bind]
    rw [parseJExp_rbrace]
    simp only [Option.some_bind]
    rfl
  · obtain ⟨d0, drest, hdd⟩ : ∃ d0 drest, decDigits u = d0 :: drest := by
      cases h : decDigits u with
      | nil => exact absurd h (decDigits_ne_nil u)
      | cons a b => exact ⟨a, b, rfl⟩
    have hd0 : d0 < 10 := decDigits_lt u d0 (by rw [hdd]; simp)
    have hne0 : d0 ≠ 0 := decDigits_head_ne_zero u hu d0 drest hdd
    have hf := digit_char_facts d0 hd0
    have hf2 := digit_char_facts2 d0 hd0
    have hdec : decChars u =
        Char.ofNat (48 + d0) :: drest.map (fun d => Char.ofNat (48 + d)) := by
      unfold decChars
      rw [hdd, List.map_cons]
    have hne0' : Char.ofNat (48 + d0) ≠ '0' := fun hc => hne0 (hf2.2.1.mp hc)
    have hdigs : ∀ c ∈ drest.map (fun d => Char.ofNat (48 + d)), c.isDigit = true := by
      intro c hc
      obtain ⟨d, hd, rfl⟩ := List.mem_map.mp hc
      exact (digit_char_facts d (decDigits_lt u d (by rw [hdd]; simp [hd]))).1
    have htd := takeWhile_digits_append _ hdigs '\x7d' (by decide) t
    rw [hdec, List.cons_append]
    rw [parseJNumber_cons_ne_neg _ _ hf2.1]
    unfold parseJNumPos
    rw [parseJIntPart_digits _ hf.1 hne0' _]
    rw [htd.1, htd.2]
    simp only [Option.bind_eq_bind, Option.some_bind]
    rw [parseJFrac_rbrace]
    simp only [Option.some_bind]
    rw [parseJExp_rbrace]
    simp only [Option.some_bind]
    rw [List.append_nil, List.append_nil, ← hdec]

theorem skipWs_cons_of_not_ws (c : Char) (r : List Char) (h : isWsChar c = false) :
    skipWs (c :: r) = c :: r := by
  simp [skipWs, List.dropWhile_cons, h]

theorem skipWs_decChars_append (u : Nat) (t : List Char) :
    skipWs (decChars u ++ t) = decChars u ++ t := by
  cases hdc : decChars u with
  | nil => exact absurd (List.map_eq_nil_iff.mp hdc) (decDigits_ne_nil u)
  | cons c cs =>
      have hc : isWsChar c = false := by
        have hmem : c ∈ decChars u := by rw [hdc]; simp
        obtain ⟨d, hd, rfl⟩ := List.mem_map.mp hmem
        exact (digit_char_facts2 d (decDigits_lt u d hd)).2.2.2.2.2.2.2.2
      rw [List.cons_append]
      exact skipWs_cons_of_not_ws c (cs ++ t) hc

/-- A quoted string value parses at any positive fuel. -/
theorem parseJValue_str (g : Nat) (s t : List Char) :
    parseJValue (g + 1) ('"' :: (escChars s ++ '"' :: t)) =
      some (Json.str (String.mk s), t) := by
  simp [parseJValue, parseJString_escChars]

/-- A printed numeral followed by the closing brace parses as a number
value at any positive fuel. -/
theorem parseJValue_decChars (g : Nat) (u : Nat) (t : List Char) :
    parseJValue (g + 1) (decChars u ++ '\x7d' :: t) =
      some (Json.num (String.mk (decChars u)), '\x7d' :: t) := by
  obtain ⟨d0, drest, hdd⟩ : ∃ d0 drest, decDigits u = d0 :: drest := by
    cases h : decDigits u with
    | nil => exact absurd h (decDigits_ne_nil u)
    | cons a b => exact ⟨a, b, rfl⟩
  have hd0 : d0 < 10 := decDigits_lt u d0 (by rw [hdd]; simp)
  obtain ⟨hm, h0iff, hq, hb, hk, ht2, hfc, hn, hws⟩ := digit_char_facts2 d0 hd0
  have hdec : decChars u =
      Char.ofNat (48 + d0) :: drest.map (fun d => Char.ofNat (48 + d)) := by
    unfold decChars
    rw [hdd, List.map_cons]
  rw [hdec, List.cons_append]
  simp [parseJValue, hq, hb, hk, ht2, hfc, hn]
  rw [← List.cons_append, ← hdec, parseJNumber_decChars]
  exact ⟨decChars u, rfl, rfl⟩

/-- A `\x7b` opening a nonempty object hands the rest to the member
parser. -/
theorem parseJValue_obj (g : Nat) (c : Char) (r : List Char) (hws : isWsChar c = false)
    (hne : c ≠ '\x7d') :
    parseJValue (g + 1) ('\x7b' :: c :: r) =
      (parseJMembers g (c :: r)).map (fun p => (Json.obj p.1, p.2)) := by
  simp [parseJValue, skipWs_cons_of_not_ws c r hws]
  split
  · rename_i r2 heq
    injection heq with h1 _
    exact absurd h1 hne
  · rfl

/-- The printed key object, after its opening brace. -/
theorem stringifyKeyChars_eq (k : LastKey) :
    stringifyKeyChars k = '\x7b' :: '"' ::
      ("videoKey".data ++ '"' :: ':' :: '"' ::
        (escChars k.videoKey.data ++ '"' :: ',' :: '"' ::
          ("partition".data ++ '"' :: ':' :: '"' ::
            (escChars k.partition.data ++ '"' :: ',' :: '"' ::
              ("uploadedAt".data ++ '"' :: ':' ::
                (decChars k.uploadedAt ++ ['\x7d'])))))) := by
  unfold stringifyKeyChars
  rw [show jsonLit1 = '\x7b' :: '"' :: ("videoKey".data ++ ['"', ':', '"']) from by decide,
    show jsonSep2 = ',' :: '"' :: ("partition".data ++ ['"', ':', '"']) from by decide,
    show jsonSep3 = ',' :: '"' :: ("uploadedAt".data ++ ['"', ':']) from by decide]
  simp [List.append_assoc]

/-- The printed key object parses back to the canonical JSON value,
with five fuel units to spare. -/
theorem parseJValue_canonical (k : LastKey) (f : Nat) :
    parseJValue (f + 5) (stringifyKeyChars k) = some (canonicalKeyJson k, []) := by
  have p1 : ∀ t : List Char,
      parseJString ('v' :: 'i' :: 'd' :: 'e' :: 'o' :: 'K' :: 'e' :: 'y' :: '"' :: t) =
        some (['v', 'i', 'd', 'e', 'o', 'K', 'e', 'y'], t) :=
    fun t => parseJString_lit ['v', 'i', 'd', 'e', 'o', 'K', 'e', 'y'] (by decide) t
  have p2 : ∀ t : List Char,
      parseJString ('p' :: 'a' :: 'r' :: 't' :: 'i' :: 't' :: 'i' :: 'o' :: 'n' :: '"' :: t) =
        some (['p', 'a', 'r', 't', 'i', 't', 'i', 'o', 'n'], t) :=
    fun t => parseJString_lit ['p', 'a', 'r', 't', 'i', 't', 'i', 'o', 'n'] (by decide) t
  have p3 : ∀ t : List Char,
      parseJString ('u' :: 'p' :: 'l' :: 'o' :: 'a' :: 'd' :: 'e' :: 'd' :: 'A' :: 't' ::
          '"' :: t) =
        some (['u', 'p', 'l', 'o', 'a', 'd', 'e', 'd', 'A', 't'], t) :=
    fun t => parseJString_lit ['u', 'p', 'l', 'o', 'a', 'd', 'e', 'd', 'A', 't'] (by decide) t
  have hn1 : String.mk ['v', 'i', 'd', 'e', 'o', 'K', 'e', 'y'] = "videoKey" := rfl
  have hn2 : String.mk ['p', 'a', 'r', 't', 'i', 't', 'i', 'o', 'n'] = "partition" := rfl
  have hn3 : String.mk ['u', 'p', 'l', 'o', 'a', 'd', 'e', 'd', 'A', 't'] = "uploadedAt" := rfl
  have hs1 : String.mk k.videoKey.data = k.videoKey := rfl
  have hs2 : String.mk k.partition.data = k.partition := rfl
  rw [stringifyKeyChars_eq, show (f : Nat) + 5 = (f + 4) + 1 from rfl]
  rw [parseJValue_obj (f + 4) '"' _ (by decide) (by decide)]
  simp [parseJMembers, p1, p2, p3,
    skipWs_cons_of_not_ws, skipWs_decChars_append, isWsChar, parseJValue_str,
    parseJValue_decChars, canonicalKeyJson, hn1, hn2, hn3, hs1, hs2]

/-- `JSON.parse` of the printed key yields the canonical JSON value. -/
theorem jsonParse_stringify (k : LastKey) :
    jsonParse (String.mk (stringifyKeyChars k)) = some (canonicalKeyJson k) := by
  unfold jsonParse
  rw [show (String.mk (stringifyKeyChars k)).data = stringifyKeyChars k from rfl]
  obtain ⟨f, hf⟩ : ∃ f, (stringifyKeyChars k).length + 2 = f + 5 := by
    refine ⟨(stringifyKeyChars k).length - 3, ?_⟩
    have h3 : 3 ≤ (stringifyKeyChars k).length := by
      rw [stringifyKeyChars_eq k]
      simp only [List.length_cons, List.length_append]
      omega
    omega
  have hsk : skipWs (stringifyKeyChars k) = stringifyKeyChars k := by
    rw [stringifyKeyChars_eq]
    exact skipWs_cons_of_not_ws _ _ (by decide)
  rw [hsk, hf, parseJValue_canonical k f]
  rfl

/-- The store accepts the canonical key JSON and reads back the key. -/
theorem keyOfJson_canonical (k : LastKey) : keyOfJson (canonicalKeyJson k) = some k := by
  obtain ⟨vk, pt, u⟩ := k
  have e1 : lookupMember [("videoKey", Json.str vk), ("partition", Json.str pt),
      ("uploadedAt", Json.num (String.mk (decChars u)))] "videoKey" =
      some (Json.str vk) := rfl
  have e2 : lookupMember [("videoKey", Json.str vk), ("partition", Json.str pt),
      ("uploadedAt", Json.num (String.mk (decChars u)))] "partition" =
      some (Json.str pt) := rfl
  have e3 : lookupMember [("videoKey", Json.str vk), ("partition", Json.str pt),
      ("uploadedAt", Json.num (String.mk (decChars u)))] "uploadedAt" =
      some (Json.num (String.mk (decChars u))) := rfl
  simp [keyOfJson, canonicalKeyJson, e1, e2, e3, numLexNat_decChars]

theorem mem_escChars {c : Char} : ∀ {s : List Char}, c ∈ escChars s → c = '\\' ∨ c ∈ s := by
  intro s
  induction s with
  | nil => intro h; simp [escChars] at h
  | cons a as ih =>
      intro h
      by_cases ha : a = '"' ∨ a = '\\'
      · rw [escChars_cons_pos a as ha] at h
        simp only [List.mem_cons] at h
        rcases h with h | h | h
        · left; exact h
        · right; simp [h]
        · rcases ih h with h' | h'
          · left; exact h'
          · right; simp [h']
      · rw [escChars_cons_neg a as ha] at h
        simp only [List.mem_cons] at h
        rcases h with h | h
        · right; simp [h]
        · rcases ih h with h' | h'
          · left; exact h'
          · right; simp [h']

theorem jsonLit1_byte : ∀ c ∈ jsonLit1, c.toNat < 256 := by decide

theorem jsonSep2_byte : ∀ c ∈ jsonSep2, c.toNat < 256 := by decide

theorem jsonSep3_byte : ∀ c ∈ jsonSep3, c.toNat < 256 := by decide

theorem mem_decChars_byte (n : Nat) : ∀ c ∈ decChars n, c.toNat < 256 := by
  intro c hc
  obtain ⟨d, hd, rfl⟩ := List.mem_map.mp hc
  exact (digit_char_facts d (decDigits_lt n d hd)).2.2

theorem stringifyKeyChars_byte (k : LastKey)
    (h1 : byteChars k.videoKey = true) (h2 : byteChars k.partition = true) :
    ∀ c ∈ stringifyKeyChars k, c.toNat < 256 := by
  intro c hc
  unfold stringifyKeyChars at hc
  simp only [List.append_assoc, List.cons_append, List.mem_append, List.mem_cons] at hc
  have hvk : ∀ x ∈ k.videoKey.data, x.toNat < 256 := by
    intro x hx
    exact of_decide_eq_true (List.all_eq_true.mp h1 x hx)
  have hpt : ∀ x ∈ k.partition.data, x.toNat < 256 := by
    intro x hx
    exact of_decide_eq_true (List.all_eq_true.mp h2 x hx)
  rcases hc with hc | hc | hc | hc | hc | hc | hc | hc
  · exact jsonLit1_byte c hc
  · rcases mem_escChars hc with rfl | hm
    · decide
    · exact hvk c hm
  · subst hc; decide
  · exact jsonSep2_byte c hc
  · rcases mem_escChars hc with rfl | hm
    · decide
    · exact hpt c hm
  · subst hc; decide
  · exact jsonSep3_byte c hc
  · rcases hc with hc | hc
    · exact mem_decChars_byte k.uploadedAt c hc
    · rcases hc with rfl | hc
      · decide
      · simp at hc

/-- The continuation-token codec roundtrip: decoding an encoded
`LastEvaluatedKey` whose string attributes are byte-valued recovers it. -/
theorem decodeToken_encodeToken (k : LastKey)
    (h1 : byteChars k.videoKey = true) (h2 : byteChars k.partition = true) :
    decodeToken (encodeToken k) = some k := by
  unfold decodeToken encodeToken
  have hb : ∀ b ∈ (stringifyKeyChars k).map Char.toNat, b < 256 := by
    intro b hb
    obtain ⟨c, hc, rfl⟩ := List.mem_map.mp hb
    exact stringifyKeyChars_byte k h1 h2 c hc
  have hdec : b64DecodeStr (String.mk (b64Encode ((stringifyKeyChars k).map Char.toNat))) =
      String.mk (stringifyKeyChars k) := by
    unfold b64DecodeStr
    rw [show (String.mk (b64Encode ((stringifyKeyChars k).map Char.toNat))).data
        = b64Encode ((stringifyKeyChars k).map Char.toNat) from rfl]
    rw [b64DecodeChunks_filter_b64Encode _ hb, map_ofNat_map_toNat]
  rw [hdec, jsonParse_stringify]
  show keyOfJson (canonicalKeyJson k) = some k
  exact keyOfJson_canonical k

/-- The object-key path-parameter codec roundtrip
(`Buffer.from(key).toString('base64')` client-side,
`Buffer.from(param, 'base64').toString('utf-8')` server-side). -/
theorem b64DecodeStr_b64EncodeStr (s : String) (h : byteChars s = true) :
    b64DecodeStr (b64EncodeStr s) = s := by
  unfold b64DecodeStr b64EncodeStr
  have hb : ∀ b ∈ s.data.map Char.toNat, b < 256 := by
    intro b hb
    obtain ⟨c, hc, rfl⟩ := List.mem_map.mp hb
    exact of_decide_eq_true (List.all_eq_true.mp h c hc)
  rw [show (String.mk (b64Encode (s.data.map Char.toNat))).data
      = b64Encode (s.data.map Char.toNat) from rfl]
  rw [b64DecodeChunks_filter_b64Encode _ hb, map_ofNat_map_toNat]

/-! ## Query lemmas -/

theorem mem_of_mem_afterKey {it : Item} {esk : Option LastKey} {l : List Item}
    (h : it ∈ afterKey esk l) : it ∈ l := by
  cases esk with
  | none => exact h
  | some k =>
      have h1 : it ∈ (l.dropWhile (fun it => itemKey it != k)) :=
        (List.drop_sublist 1 _).subset h
      exact (List.dropWhile_sublist _).subset h1

/-- Every item of a returned page lies in the index, satisfies the key
condition and satisfies the filter expression. -/
theorem mem_queryItems {it : Item} {index : List Item} {keyC filt : Item → Bool}
    {esk : Option LastKey} (h : it ∈ (dynamoQuery index keyC filt esk).items) :
    it ∈ index ∧ keyC it = true ∧ filt it = true := by
  unfold dynamoQuery at h
  simp only at h
  have h1 := List.mem_filter.mp h
  have h2 : it ∈ afterKey esk (index.filter keyC) :=
    List.mem_of_mem_take h1.1
  have h3 := List.mem_filter.mp (mem_of_mem_afterKey h2)
  exact ⟨h3.1, h3.2, h1.2⟩

/-- Resuming from the key of `a` skips exactly past `a`, provided no
earlier item shares `a`'s key. -/
theorem afterKey_append (xs : List Item) (a : Item) (ys : List Item)
    (hx : ∀ x ∈ xs, itemKey x ≠ itemKey a) :
    afterKey (some (itemKey a)) (xs ++ a :: ys) = ys := by
  induction xs with
  | nil =>
      show List.drop 1 (List.dropWhile (fun it => itemKey it != itemKey a) (a :: ys)) = ys
      rw [List.dropWhile_cons]
      simp
  | cons x xs ih =>
      show List.drop 1
        (List.dropWhile (fun it => itemKey it != itemKey a) (x :: (xs ++ a :: ys))) = ys
      rw [List.dropWhile_cons]
      have hne : (itemKey x != itemKey a) = true :=
        bne_iff_ne.mpr (hx x (by simp))
      rw [if_pos hne]
      exact ih (fun y hy => hx y (by simp [hy]))

/-- Strictly descending `uploadedAt` makes all index keys distinct. -/
theorem pairwise_key_ne {l : List Item}
    (h : l.Pairwise (fun a b => b.uploadedAt < a.uploadedAt)) :
    l.Pairwise (fun a b => itemKey a ≠ itemKey b) := by
  refine h.imp ?_
  intro a b hab hk
  have : a.uploadedAt = b.uploadedAt := congrArg LastKey.uploadedAt hk
  omega

theorem PAGE_SIZE_eq : PAGE_SIZE = 50 := rfl

/-- Main pagination invariant: paging from a cursor that points just past
the items in `done` visits exactly the remaining items `rest` of the
key-condition range, in order, using one request per started window of
`PAGE_SIZE` scanned items plus the final request that returns no
`LastEvaluatedKey`. -/
theorem paginate_from (index : List Item) (cam : Option String) (sd ed : Option Nat)
    (hpw : (index.filter (fun it => keyCond sd ed it.uploadedAt)).Pairwise
      (fun a b => b.uploadedAt < a.uploadedAt))
    (hbyte : ∀ it ∈ index.filter (fun it => keyCond sd ed it.uploadedAt),
      byteChars it.videoKey = true ∧ byteChars it.partition = true)
    (hfilt : ∀ it ∈ index.filter (fun it => keyCond sd ed it.uploadedAt),
      passesFilter cam it = true) :
    ∀ (fuel : Nat) (done rest : List Item) (tok : Option String),
      index.filter (fun it => keyCond sd ed it.uploadedAt) = done ++ rest →
      ((tok = none ∧ done = []) ∨
        (∃ ds a, done = ds ++ [a] ∧ tok = some (encodeToken (itemKey a)))) →
      rest.length / PAGE_SIZE + 1 ≤ fuel →
      (paginate index cam sd ed fuel tok).flatten = rest.map toVideoMetadata ∧
      (paginate index cam sd ed fuel tok).length = rest.length / PAGE_SIZE + 1 := by
  intro fuel
  induction fuel with
  | zero => intro done rest tok _ _ hf; exact (Nat.not_succ_le_zero _ hf).elim
  | succ fuel ih =>
      intro done rest tok hsplit htok hf
      have hrestmem : ∀ it ∈ rest, it ∈ index.filter (fun it => keyCond sd ed it.uploadedAt) := by
        intro it hit; rw [hsplit]; exact List.mem_append_right done hit
      have hrestfilt : ∀ it ∈ rest, passesFilter cam it = true :=
        fun it hit => hfilt it (hrestmem it hit)
      have hrem : afterKey (tok.bind decodeToken)
          (index.filter (fun it => keyCond sd ed it.uploadedAt)) = rest := by
        rcases htok with ⟨rfl, rfl⟩ | ⟨ds, a, hd, rfl⟩
        · rw [hsplit]; rfl
        · have ha : a ∈ index.filter (fun it => keyCond sd ed it.uploadedAt) := by
            rw [hsplit, hd]; simp
          have hab := hbyte a ha
          have hdec : decodeToken (encodeToken (itemKey a)) = some (itemKey a) :=
            decodeToken_encodeToken _ hab.1 hab.2
          rw [show (some (encodeToken (itemKey a))).bind decodeToken = some (itemKey a) from by
            simp [hdec]]
          have hsplit' : index.filter (fun it => keyCond sd ed it.uploadedAt) = ds ++ a :: rest := by
            rw [hsplit, hd]; simp
          rw [hsplit']
          apply afterKey_append
          have hpw' := pairwise_key_ne hpw
          rw [hsplit'] at hpw'
          intro x hx
          exact (List.pairwise_append.mp hpw').2.2 x hx a (by simp)
      rcases Nat.lt_or_ge rest.length PAGE_SIZE with hlt | hge
      · -- the range is exhausted within this window: no LastEvaluatedKey
        have hscan : rest.take PAGE_SIZE = rest := List.take_of_length_le (le_of_lt hlt)
        have hq : listVideosFromDynamoDB index tok cam sd ed =
            { videos := rest.map toVideoMetadata, nextToken := none, hasMore := false } := by
          unfold listVideosFromDynamoDB dynamoQuery
          simp only [hrem, hscan]
          rw [List.filter_eq_self.mpr hrestfilt]
          rw [if_neg (by omega : ¬rest.length = PAGE_SIZE)]
          rfl
        have hpag : paginate index cam sd ed (fuel + 1) tok = [rest.map toVideoMetadata] := by
          simp only [paginate, hq]
        rw [hpag]
        constructor
        · simp
        · simp only [List.length_singleton]
          rw [Nat.div_eq_of_lt hlt]
      · -- a full window was scanned: LastEvaluatedKey is returned
        have hlen50 : (rest.take PAGE_SIZE).length = PAGE_SIZE := by
          rw [List.length_take]; omega
        have hne : rest.take PAGE_SIZE ≠ [] := by
          intro hnil; rw [hnil] at hlen50; simp [PAGE_SIZE_eq] at hlen50
        have hlast : (rest.take PAGE_SIZE).getLast? =
            some ((rest.take PAGE_SIZE).getLast hne) :=
          List.getLast?_eq_getLast _ hne
        set last := (rest.take PAGE_SIZE).getLast hne with hlastdef
        have hq : listVideosFromDynamoDB index tok cam sd ed =
            { videos := (rest.take PAGE_SIZE).map toVideoMetadata
              nextToken := some (encodeToken (itemKey last))
              hasMore := true } := by
          unfold listVideosFromDynamoDB dynamoQuery
          simp only [hrem]
          rw [List.filter_eq_self.mpr
            (fun it hit => hrestfilt it (List.mem_of_mem_take hit))]
          rw [if_pos hlen50, hlast]
          rfl
        have htake : rest.take PAGE_SIZE = (rest.take PAGE_SIZE).dropLast ++ [last] := by
          rw [hlastdef]
          exact (List.dropLast_append_getLast hne).symm
        have hih := ih (done ++ (rest.take PAGE_SIZE)) (rest.drop PAGE_SIZE)
          (some (encodeToken (itemKey last)))
          (by rw [hsplit, List.append_assoc, List.take_append_drop])
          (Or.inr ⟨done ++ (rest.take PAGE_SIZE).dropLast, last,
            by rw [List.append_assoc, ← htake], rfl⟩)
          (by rw [List.length_drop]; rw [PAGE_SIZE_eq] at *; omega)
        have hpag : paginate index cam sd ed (fuel + 1) tok =
            (rest.take PAGE_SIZE).map toVideoMetadata ::
              paginate index cam sd ed fuel (some (encodeToken (itemKey last))) := by
          simp only [paginate, hq]
        rw [hpag]
        constructor
        · simp only [List.flatten_cons, hih.1]
          rw [← List.map_append, List.take_append_drop]
        · simp only [List.length_cons, hih.2, List.length_drop]
          rw [PAGE_SIZE_eq] at *
          omega

/-- Pagination over the whole key-condition range, starting with no
cursor: every request after the first resumes from the token the previous
response returned. -/
theorem paginate_complete (index : List Item) (cam : Option String)
    (sd ed : Option Nat) (fuel : Nat)
    (hpw : index.Pairwise (fun a b => b.uploadedAt < a.uploadedAt))
    (hbyte : ∀ it ∈ index, byteChars it.videoKey = true ∧ byteChars it.partition = true)
    (hfilt : ∀ it ∈ index, keyCond sd ed it.uploadedAt = true → passesFilter cam it = true)
    (hfuel : (index.filter (fun it => keyCond sd ed it.uploadedAt)).length / PAGE_SIZE + 1 ≤ fuel) :
    (paginate index cam sd ed fuel none).flatten
      = (index.filter (fun it => keyCond sd ed it.uploadedAt)).map toVideoMetadata ∧
    (paginate index cam sd ed fuel none).length
      = (index.filter (fun it => keyCond sd ed it.uploadedAt)).length / PAGE_SIZE + 1 := by
  have h1 := hpw.filter (fun it => keyCond sd ed it.uploadedAt)
  have h2 : ∀ it ∈ index.filter (fun it => keyCond sd ed it.uploadedAt),
      byteChars it.videoKey = true ∧ byteChars it.partition = true :=
    fun it hit => hbyte it (List.mem_filter.mp hit).1
  have h3 : ∀ it ∈ index.filter (fun it => keyCond sd ed it.uploadedAt),
      passesFilter cam it = true :=
    fun it hit => hfilt it (List.mem_filter.mp hit).1 (List.mem_filter.mp hit).2
  exact paginate_from index cam sd ed h1 h2 h3 fuel []
    (index.filter (fun it => keyCond sd ed it.uploadedAt)) none (by simp)
    (Or.inl ⟨rfl, rfl⟩) hfuel

/-! ## Claim C1 -/

/-- C1 (amended): for a store of N records that are all non-deleted and all
match the fixed filter, with strictly descending (hence distinct) capture
times and no concurrent writes, paging from the start with page size
P = 50 and repeatedly following the returned cursor yields ⌊N/P⌋ + 1 pages
(one more than ⌈N/P⌉ when N is a positive multiple of P, and a single
empty page when N = 0; the final request returns no cursor), whose
concatenation contains each record exactly once, in strictly descending
`uploadedAt` order. -/
theorem C1_pagination_complete (index : List Item) (cam : Option String) (fuel : Nat)
    (hpw : index.Pairwise (fun a b => b.uploadedAt < a.uploadedAt))
    (hbyte : ∀ it ∈ index, byteChars it.videoKey = true ∧ byteChars it.partition = true)
    (hfilt : ∀ it ∈ index, passesFilter cam it = true)
    (hfuel : index.length / PAGE_SIZE + 1 ≤ fuel) :
    (paginate index cam none none fuel none).flatten = index.map toVideoMetadata ∧
    (paginate index cam none none fuel none).length = index.length / PAGE_SIZE + 1 ∧
    (paginate index cam none none fuel none).flatten.Pairwise
      (fun v w => w.uploadedAt < v.uploadedAt) := by
  have hfl : index.filter (fun it => keyCond none none it.uploadedAt) = index :=
    List.filter_eq_self.mpr (fun a _ => rfl)
  have h := paginate_complete index cam none none fuel hpw hbyte
    (fun it hit _ => hfilt it hit) (by rw [hfl]; exact hfuel)
  rw [hfl] at h
  refine ⟨h.1, h.2, ?_⟩
  rw [h.1]
  exact List.pairwise_map.mpr hpw

/-- C1 witness: a 3-record store paginates into a single page holding all
3 records. -/
theorem C1_pagination_complete_witness :
    (paginate store3 none none none 2 none).flatten = store3.map toVideoMetadata ∧
    (paginate store3 none none none 2 none).length = 1 := by
  have h := C1_pagination_complete store3 none 2 (by decide) (by decide) (by decide)
    (by decide)
  exact ⟨h.1, by rw [h.2.1]; decide⟩

set_option maxRecDepth 8000 in
/-- C1 counterexample: a store of exactly N = 50 non-deleted records that
all match the (trivial) filter, with distinct capture times, paginates
into 2 pages — a full page whose response still carries a cursor, then an
empty one — not ⌈50/50⌉ = 1 pages as the claim states. -/
theorem C1_counterexample :
    (paginate store50 none none none 3 none).length = 2 ∧
    (store50.length + PAGE_SIZE - 1) / PAGE_SIZE = 1 := by
  have hfl : store50.filter (fun it => keyCond none none it.uploadedAt) = store50 :=
    List.filter_eq_self.mpr (fun a _ => rfl)
  have hlen : store50.length = 50 := by simp [store50]
  have h := paginate_complete store50 none none none 3 (by decide) (by decide)
    (by decide) (by rw [hfl, hlen]; decide)
  constructor
  · rw [h.2, hfl, hlen]; decide
  · rw [hlen]; decide

/-! ## Claim C2 -/

/-- C2 (the code is wrong): the unparenthesized FilterExpression lets a
never-deleted record pass regardless of camera.  A store holding one
record with camera "usb" and no `deleted` attribute, queried with camera
filter "picamera", returns that record — its camera differs from the
filter value, contradicting the claim (and the code's evident intent of
adding a camera filter to the deleted filter). -/
theorem C2_camera_filter_bug :
    passesFilter (some "picamera") (itemAt 'u' 500) = true ∧
    (itemAt 'u' 500).camera ≠ "picamera" ∧
    (itemAt 'u' 500).deleted = none ∧
    (listVideosFromDynamoDB [itemAt 'u' 500] none (some "picamera") none none).videos
      = [toVideoMetadata (itemAt 'u' 500)] := by
  exact ⟨by decide, by decide, rfl, by decide⟩

/-- C6: if the S3 object deletion (step 1) fails, the whole route fails
with a 500 and the index is untouched — in particular no tombstone fields
are written. -/
theorem C6_delete_first_step_fails (env : DeleteEnv) (encodedKey : String)
    (table : List Item) (nowMs : Nat) (h : env.s3DeleteOk = false) :
    (deleteRoute true env encodedKey table nowMs).status = 500 ∧
    (deleteRoute true env encodedKey table nowMs).table = table := by
  unfold deleteRoute
  simp [h]

/-- C6 witness: concrete failing S3 delete leaves the store unchanged. -/
theorem C6_delete_first_step_fails_witness :
    s3FailEnv.s3DeleteOk = false ∧
    (deleteRoute true s3FailEnv (b64EncodeStr "vA") store3 0).status = 500 ∧
    (deleteRoute true s3FailEnv (b64EncodeStr "vA") store3 0).table = store3 := by
  have h := C6_delete_first_step_fails s3FailEnv (b64EncodeStr "vA") store3 0 rfl
  exact ⟨rfl, h.1, h.2⟩

/-! ## Claim C5 -/

/-- A true FilterExpression never lets a tombstoned item through: an item
with `deleted = true` fails both disjuncts, with or without a camera
filter. -/
theorem passesFilter_no_tombstone {cam : Option String} {it : Item}
    (h : passesFilter cam it = true) : it.deleted ≠ some true := by
  intro hdel
  unfold passesFilter at h
  rcases cam with _ | c <;> rw [hdel] at h <;> simp at h

/-- After tombstoning every item with the given key, no item drawn from
the table that passes the filter expression carries that key. -/
theorem markDeleted_filter_no_key {store : List Item} {key : String} {dAt : Nat}
    {cam : Option String} {it : Item}
    (hmem : it ∈ markDeleted store key dAt) (hp : passesFilter cam it = true) :
    it.videoKey ≠ key := by
  obtain ⟨it0, hit0, heq⟩ := List.mem_map.mp hmem
  have hnd := passesFilter_no_tombstone hp
  intro hkey
  by_cases hk0 : it0.videoKey = key
  · rw [if_pos hk0] at heq
    rw [← heq] at hnd
    exact hnd rfl
  · rw [if_neg hk0] at heq
    rw [← heq] at hkey
    exact hk0 hkey

/-- C5: once the deletion route has tombstoned a record, that record's key
is absent from the videos of every subsequent list query — for every
cursor, camera filter and date range.  The second conjunct states the
store-semantics-independent core: whatever window of the tombstoned table
the store scans (wherever a cursor positions the scan), the filter
expression removes every item with the deleted key, so the conclusion does
not depend on how a cursor's resume position is modelled. -/
theorem C5_tombstone_invisible (env : DeleteEnv) (encodedKey : String)
    (store : List Item) (nowMs : Nat)
    (h1 : env.s3DeleteOk = true) (h2 : env.ddbUpdateOk = true) :
    (deleteRoute true env encodedKey store nowMs).status = 200 ∧
    (∀ (window : List Item) (cam : Option String),
      (∀ w ∈ window, w ∈ (deleteRoute true env encodedKey store nowMs).table) →
      ∀ it ∈ window.filter (passesFilter cam),
        it.videoKey ≠ b64DecodeStr encodedKey) ∧
    (∀ (tok cam : Option String) (sd ed : Option Nat),
      ∀ v ∈ (listVideosFromDynamoDB
          (deleteRoute true env encodedKey store nowMs).table tok cam sd ed).videos,
        v.videoKey ≠ b64DecodeStr encodedKey) := by
  have hroute : deleteRoute true env encodedKey store nowMs =
      { status := 200
        table := markDeleted store (b64DecodeStr encodedKey) (nowMs / 1000) } := by
    unfold deleteRoute
    simp [h1, h2]
  rw [hroute]
  refine ⟨rfl, ?_, ?_⟩
  · intro window cam hsub it hit
    have h := List.mem_filter.mp hit
    exact markDeleted_filter_no_key (hsub it h.1) h.2
  · intro tok cam sd ed v hv
    unfold listVideosFromDynamoDB at hv
    simp only at hv
    obtain ⟨it, hit, rfl⟩ := List.mem_map.mp hv
    have hq := mem_queryItems hit
    exact markDeleted_filter_no_key hq.1 hq.2.2

/-- C5 witness: deleting the sample store's newest record hides its key
from the follow-up first-page query. -/
theorem C5_tombstone_invisible_witness :
    (deleteRoute true allOkEnv (b64EncodeStr "vA") store3 0).status = 200 ∧
    ∀ v ∈ (listVideosFromDynamoDB
        (deleteRoute true allOkEnv (b64EncodeStr "vA") store3 0).table
        none none none none).videos,
      v.videoKey ≠ b64DecodeStr (b64EncodeStr "vA") := by
  have h := C5_tombstone_invisible allOkEnv (b64EncodeStr "vA") store3 0 rfl rfl
  exact ⟨h.1, h.2.2 none none none none⟩

/-! ## Claim C3 -/

theorem putItem_idem (t : List Item) (a : Item) :
    putItem (putItem t a) a = putItem t a := by
  unfold putItem
  rw [List.filter_cons_of_neg (by simp)]
  simp [List.filter_filter, Bool.and_self]

theorem putItem_filter_key (t : List Item) (a : Item) :
    (putItem t a).filter (fun it => it.videoKey == a.videoKey) = [a] := by
  unfold putItem
  rw [List.filter_cons_of_pos (by simp)]
  have hnil : (t.filter (fun it => it.videoKey != a.videoKey)).filter
      (fun it => it.videoKey == a.videoKey) = [] := by
    rw [List.filter_eq_nil_iff]
    intro x hx
    have hne := (List.mem_filter.mp hx).2
    simp only [bne_iff_ne, ne_eq] at hne
    simp [hne]
  rw [hnil]

/-- C3: delivering the same object-creation notification twice (whatever
the wall-clock times of the two deliveries, the object's last-modified
time being available) leaves the table exactly as after the first
delivery, with exactly one record for that objectKey, whose derived
fields — uploadedAt and ttl in particular — are determined by the object
metadata alone. -/
theorem C3_idempotent_ingestion (head : String → String → HeadResult)
    (now1 now2 : Nat) (table : List Item) (r : S3EventRecord) (m : Nat)
    (hmp4 : ".mp4".data.isSuffixOf (urlDecode r.objectKey).data = true)
    (hpre : "motion_detections/".data.isPrefixOf (urlDecode r.objectKey).data = true)
    (hlm : (head r.bucketName (urlDecode r.objectKey)).lastModifiedMs = some m)
    (hm0 : m ≠ 0) :
    handler head now2 [r] (handler head now1 [r] table) = handler head now1 [r] table ∧
    ∃ item : Item,
      (handler head now1 [r] table).filter
        (fun it => it.videoKey == urlDecode r.objectKey) = [item] ∧
      item.videoKey = urlDecode r.objectKey ∧
      item.uploadedAt = m / 1000 ∧
      item.ttl = m / 1000 + 90 * 24 * 60 * 60 ∧
      item.size = r.objectSize := by
  have hproc : ∀ (nowMs : Nat) (t : List Item), processRecord head nowMs t r =
      putItem t
        { videoKey := urlDecode r.objectKey
          partition := "all"
          fileName := fileNameOf (urlDecode r.objectKey)
          uploadedAt := m / 1000
          size := r.objectSize
          camera := deriveCamera (head r.bucketName (urlDecode r.objectKey)).metadataCamera
            (fileNameOf (urlDecode r.objectKey))
          bucket := r.bucketName
          ttl := m / 1000 + 90 * 24 * 60 * 60
          deleted := none
          deletedAt := none
          detectedObjects := none } := by
    intro nowMs t
    unfold processRecord
    simp only [hmp4, hpre, hlm, Bool.not_true, Bool.or_self, Bool.false_or, if_false]
    simp [hm0]
  have hh : ∀ (nowMs : Nat) (t : List Item),
      handler head nowMs [r] t = processRecord head nowMs t r := by
    intro nowMs t; rfl
  rw [hh, hh, hproc, hproc, putItem_idem]
  exact ⟨rfl, ⟨_, putItem_filter_key table _, rfl, rfl, rfl, rfl⟩⟩

set_option maxRecDepth 100000 in
set_option maxHeartbeats 1000000 in
/-- C3 witness: a concrete notification delivered twice at different
wall-clock times. -/
theorem C3_idempotent_ingestion_witness :
    handler sampleHead 999 [sampleEventRecord]
        (handler sampleHead 1 [sampleEventRecord] []) =
      handler sampleHead 1 [sampleEventRecord] [] ∧
    ∃ item : Item,
      (handler sampleHead 1 [sampleEventRecord] []).filter
        (fun it => it.videoKey == urlDecode sampleEventRecord.objectKey) = [item] ∧
      item.videoKey = urlDecode sampleEventRecord.objectKey ∧
      item.uploadedAt = 5000000 / 1000 ∧
      item.ttl = 5000000 / 1000 + 90 * 24 * 60 * 60 ∧
      item.size = sampleEventRecord.objectSize := by
  exact C3_idempotent_ingestion sampleHead 1 999 [] sampleEventRecord 5000000
    (by decide) (by decide) rfl (by decide)

/-! ## Claim C7 -/

/-- C7: with an end date (whose epoch-midnight second is `e`), a record
captured exactly at the end-of-day boundary `e + 86400` appears in the
paged results, a record one second past it does not, and the date bound
participates in the key condition delimiting the scanned range — querying
the index is the same as querying the pre-restricted range — rather than
acting as a post-filter. -/
theorem C7_date_boundary (index : List Item) (cam : Option String) (e : Nat)
    (fuel : Nat) (a b : Item)
    (hpw : index.Pairwise (fun x y => y.uploadedAt < x.uploadedAt))
    (hbyte : ∀ it ∈ index, byteChars it.videoKey = true ∧ byteChars it.partition = true)
    (hfilt : ∀ it ∈ index, passesFilter cam it = true)
    (hkeys : (index.map Item.videoKey).Nodup)
    (ha : a ∈ index) (hau : a.uploadedAt = e + 86400)
    (hb : b ∈ index) (hbu : b.uploadedAt = e + 86400 + 1)
    (hfuel : index.length / PAGE_SIZE + 1 ≤ fuel) :
    toVideoMetadata a ∈ (paginate index cam none (some e) fuel none).flatten ∧
    (∀ v ∈ (paginate index cam none (some e) fuel none).flatten,
      v.videoKey ≠ b.videoKey) ∧
    (∀ (esk : Option LastKey) (filt : Item → Bool),
      dynamoQuery index (fun it => keyCond none (some e) it.uploadedAt) filt esk =
        dynamoQuery (index.filter (fun it => keyCond none (some e) it.uploadedAt))
          (fun _ => true) filt esk) := by
  have hflen : (index.filter (fun it => keyCond none (some e) it.uploadedAt)).length
      ≤ index.length := List.length_filter_le _ _
  have h := paginate_complete index cam none (some e) fuel hpw hbyte
    (fun it hit _ => hfilt it hit)
    (le_trans (Nat.add_le_add_right (Nat.div_le_div_right hflen) 1) hfuel)
  have hamem : a ∈ index.filter (fun it => keyCond none (some e) it.uploadedAt) :=
    List.mem_filter.mpr ⟨ha, by unfold keyCond; rw [hau]; simp⟩
  refine ⟨?_, ?_, ?_⟩
  · rw [h.1]
    exact List.mem_map_of_mem toVideoMetadata hamem
  · intro v hv
    rw [h.1] at hv
    obtain ⟨it, hit, rfl⟩ := List.mem_map.mp hv
    have hitf := List.mem_filter.mp hit
    intro hvb
    have hvb' : Item.videoKey it = Item.videoKey b := hvb
    have hib : it = b := List.inj_on_of_nodup_map hkeys hitf.1 hb hvb'
    have hcond := hitf.2
    rw [hib] at hcond
    unfold keyCond at hcond
    rw [hbu] at hcond
    have := of_decide_eq_true hcond
    omega
  · intro esk filt
    unfold dynamoQuery
    rw [List.filter_true]

/-- C7 witness: with endDate epoch 0, the record at second 86400 is
returned while the record at second 86401 is not. -/
theorem C7_date_boundary_witness :
    toVideoMetadata (itemAt 'a' 86400) ∈
      (paginate dateStore none none (some 0) 2 none).flatten ∧
    ∀ v ∈ (paginate dateStore none none (some 0) 2 none).flatten,
      v.videoKey ≠ (itemAt 'b' 86401).videoKey := by
  have h := C7_date_boundary dateStore none 0 2 (itemAt 'a' 86400) (itemAt 'b' 86401)
    (by decide) (by decide) (by decide) (by decide) (by decide) rfl (by decide) rfl
    (by decide)
  exact ⟨h.1, h.2.1⟩

/-! ## Claim C8 -/

/-- C8: for every playback time t, with frame rate F = 20 and sample
stride S = 10, the overlay synchronizer computes
frameIndex = floor(t * F) and nearestSampledFrame =
round(frameIndex / S) * S, and draws exactly the detections whose
frame_index equals nearestSampledFrame; at t = 0.49 s the frame index is
9, the nearest sampled frame is 10 and only detections with frame_index
10 are drawn; at t = 0 s only those with frame_index 0. -/
theorem C8_overlay_frame_selection :
    (∀ t : ℚ, currentFrameIndex t = Int.floor (t * 20)) ∧
    (∀ t : ℚ, closestSampledFrame t = round ((currentFrameIndex t : ℚ) / 10) * 10) ∧
    (∀ (t : ℚ) (dets : List Detection),
      visibleDetections t dets =
        dets.filter (fun d => d.frame_index == closestSampledFrame t)) ∧
    currentFrameIndex (49 / 100) = 9 ∧
    closestSampledFrame (49 / 100) = 10 ∧
    currentFrameIndex 0 = 0 ∧
    closestSampledFrame 0 = 0 ∧
    (∀ dets : List Detection,
      visibleDetections (49 / 100) dets = dets.filter (fun d => d.frame_index == 10)) ∧
    (∀ dets : List Detection,
      visibleDetections 0 dets = dets.filter (fun d => d.frame_index == 0)) := by
  have h49f : currentFrameIndex (49 / 100) = 9 := by
    unfold currentFrameIndex
    norm_num
  have h49c : closestSampledFrame (49 / 100) = 10 := by
    unfold closestSampledFrame
    rw [h49f, round_eq]
    norm_num
  have h0f : currentFrameIndex 0 = 0 := by
    unfold currentFrameIndex
    norm_num
  have h0c : closestSampledFrame 0 = 0 := by
    unfold closestSampledFrame
    rw [h0f, round_eq]
    norm_num
  refine ⟨fun _ => rfl, fun _ => rfl, fun _ _ => rfl, h49f, h49c, h0f, h0c, ?_, ?_⟩
  · intro dets
    unfold visibleDetections
    rw [h49c]
  · intro dets
    unfold visibleDetections
    rw [h0c]

/-! ## Claim C9 -/

/-- C9 (amended): the object-key path-parameter encoding is reversible —
decoding recovers the original key, embedded path separators included —
but an invalid encoding is not rejected with a 400-class error: the
routes decode it leniently (characters outside the base64 alphabet are
ignored) and proceed, so an authenticated request is answered 200 or,
on a downstream store failure, 500 — never a 400-class status. -/
theorem C9_key_encoding (k : String) (hk : byteChars k = true) :
    b64DecodeStr (b64EncodeStr k) = k ∧
    (∀ (env : DeleteEnv) (ek : String) (table : List Item) (nowMs : Nat),
      (deleteRoute true env ek table nowMs).status = 200 ∨
      (deleteRoute true env ek table nowMs).status = 500) ∧
    (∀ (ok : Bool) (ek : String),
      mediaUrlRoute true ok ek = 200 ∨ mediaUrlRoute true ok ek = 500) := by
  refine ⟨b64DecodeStr_b64EncodeStr k hk, ?_, ?_⟩
  · intro env ek table nowMs
    obtain ⟨s3ok, bbok, ddbok⟩ := env
    unfold deleteRoute
    cases s3ok <;> cases ddbok <;> simp
  · intro ok ek
    unfold mediaUrlRoute
    cases ok <;> simp

/-- C9 witness: a key with embedded separators and a space round-trips
through the path-parameter encoding. -/
theorem C9_key_encoding_witness :
    byteChars "motion_detections/2024/clip one.mp4" = true ∧
    b64DecodeStr (b64EncodeStr "motion_detections/2024/clip one.mp4") =
      "motion_detections/2024/clip one.mp4" := by
  have h := C9_key_encoding "motion_detections/2024/clip one.mp4" (by decide)
  exact ⟨by decide, h.1⟩

/-- C9 counterexample: "!!!!" is not a valid encoding — none of its
characters is even in the base64 alphabet — yet the delete route answers
200 (deleting whatever the lenient decode produced, here the empty key)
and the media-URL route answers 200: no 400-class error is returned. -/
theorem C9_counterexample :
    (∀ c ∈ "!!!!".data, isB64Char c = false) ∧
    deleteRoute true allOkEnv "!!!!" [] 0 = { status := 200, table := [] } ∧
    mediaUrlRoute true true "!!!!" = 200 ∧
    ¬(400 ≤ (deleteRoute true allOkEnv "!!!!" [] 0).status ∧
      (deleteRoute true allOkEnv "!!!!" [] 0).status < 500) := by
  exact ⟨by decide, by decide, by decide, by decide⟩

/-! ## Claim C10 -/

theorem bind_decodeToken_none : (none : Option String).bind decodeToken = none := rfl

theorem afterKey_none (l : List Item) : afterKey none l = l := rfl

/-- C10: `hasMore` is true and `nextToken` is present exactly when the
store query returned a `LastEvaluatedKey`; consequently, when the
matching data ends exactly at the page boundary, the final full page is
returned with `hasMore = true` and a cursor, and the follow-up call
returns no records with `hasMore = false` — `hasMore = true` does not
guarantee that further matching records exist. -/
theorem C10_hasMore_page_boundary (index : List Item) (cam : Option String)
    (sd ed : Option Nat)
    (hpw : index.Pairwise (fun x y => y.uploadedAt < x.uploadedAt))
    (hbyte : ∀ it ∈ index, byteChars it.videoKey = true ∧ byteChars it.partition = true)
    (hfilt : ∀ it ∈ index.filter (fun it => keyCond sd ed it.uploadedAt),
      passesFilter cam it = true)
    (hlen : (index.filter (fun it => keyCond sd ed it.uploadedAt)).length = PAGE_SIZE) :
    (∀ (idx2 : List Item) (tok2 cam2 : Option String) (sd2 ed2 : Option Nat),
      (listVideosFromDynamoDB idx2 tok2 cam2 sd2 ed2).hasMore =
        (listVideosFromDynamoDB idx2 tok2 cam2 sd2 ed2).nextToken.isSome) ∧
    (listVideosFromDynamoDB index none cam sd ed).videos =
      (index.filter (fun it => keyCond sd ed it.uploadedAt)).map toVideoMetadata ∧
    (listVideosFromDynamoDB index none cam sd ed).hasMore = true ∧
    ∃ t : String,
      (listVideosFromDynamoDB index none cam sd ed).nextToken = some t ∧
      (listVideosFromDynamoDB index (some t) cam sd ed).videos = [] ∧
      (listVideosFromDynamoDB index (some t) cam sd ed).hasMore = false := by
  have hiff : ∀ (idx2 : List Item) (tok2 cam2 : Option String) (sd2 ed2 : Option Nat),
      (listVideosFromDynamoDB idx2 tok2 cam2 sd2 ed2).hasMore =
        (listVideosFromDynamoDB idx2 tok2 cam2 sd2 ed2).nextToken.isSome := by
    intro idx2 tok2 cam2 sd2 ed2
    unfold listVideosFromDynamoDB
    simp [Option.isSome_map]
  have hne : index.filter (fun it => keyCond sd ed it.uploadedAt) ≠ [] := by
    intro hnil
    rw [hnil] at hlen
    rw [PAGE_SIZE_eq] at hlen
    simp at hlen
  have htake : (index.filter (fun it => keyCond sd ed it.uploadedAt)).take PAGE_SIZE =
      index.filter (fun it => keyCond sd ed it.uploadedAt) :=
    List.take_of_length_le (le_of_eq hlen)
  have hlast : (index.filter (fun it => keyCond sd ed it.uploadedAt)).getLast? =
      some ((index.filter (fun it => keyCond sd ed it.uploadedAt)).getLast hne) :=
    List.getLast?_eq_getLast _ hne
  set last := (index.filter (fun it => keyCond sd ed it.uploadedAt)).getLast hne
    with hlastdef
  have hlastmem : last ∈ index.filter (fun it => keyCond sd ed it.uploadedAt) := by
    rw [hlastdef]
    exact List.getLast_mem hne
  have hq1 : listVideosFromDynamoDB index none cam sd ed =
      { videos := (index.filter (fun it => keyCond sd ed it.uploadedAt)).map toVideoMetadata
        nextToken := some (encodeToken (itemKey last))
        hasMore := true } := by
    unfold listVideosFromDynamoDB dynamoQuery
    simp only [bind_decodeToken_none, afterKey_none, htake]
    rw [List.filter_eq_self.mpr hfilt, if_pos hlen, hlast]
    rfl
  have hbl := hbyte last (List.mem_filter.mp hlastmem).1
  have hdec : decodeToken (encodeToken (itemKey last)) = some (itemKey last) :=
    decodeToken_encodeToken _ hbl.1 hbl.2
  have hafter : afterKey (some (itemKey last))
      (index.filter (fun it => keyCond sd ed it.uploadedAt)) = [] := by
    have hsplit : index.filter (fun it => keyCond sd ed it.uploadedAt) =
        (index.filter (fun it => keyCond sd ed it.uploadedAt)).dropLast ++ last :: [] := by
      rw [hlastdef]
      exact (List.dropLast_append_getLast hne).symm
    rw [hsplit]
    apply afterKey_append
    have hpw' := pairwise_key_ne (hpw.filter (fun it => keyCond sd ed it.uploadedAt))
    rw [hsplit] at hpw'
    intro x hx
    exact (List.pairwise_append.mp hpw').2.2 x hx last (by simp)
  have hq2 : listVideosFromDynamoDB index (some (encodeToken (itemKey last))) cam sd ed =
      { videos := [], nextToken := none, hasMore := false } := by
    unfold listVideosFromDynamoDB dynamoQuery
    rw [show (some (encodeToken (itemKey last))).bind decodeToken = some (itemKey last) from by
      simp [hdec]]
    simp only [hafter]
    simp [PAGE_SIZE_eq]
  refine ⟨hiff, ?_, ?_, encodeToken (itemKey last), ?_, ?_, ?_⟩
  · rw [hq1]
  · rw [hq1]
  · rw [hq1]
  · rw [hq2]
  · rw [hq2]

set_option maxRecDepth 8000 in
/-- C10 witness: the 50-record store yields a full first page with
`hasMore = true` and a cursor whose follow-up page is empty with
`hasMore = false`. -/
theorem C10_hasMore_page_boundary_witness :
    (listVideosFromDynamoDB store50 none none none none).hasMore = true ∧
    ∃ t : String,
      (listVideosFromDynamoDB store50 none none none none).nextToken = some t ∧
      (listVideosFromDynamoDB store50 (some t) none none none).videos = [] ∧
      (listVideosFromDynamoDB store50 (some t) none none none).hasMore = false := by
  have h := C10_hasMore_page_boundary store50 none none none (by decide) (by decide)
    (by decide) (by decide)
  exact ⟨h.2.2.1, h.2.2.2⟩
